import Mathlib

/-!
Verification of the task data model, validation and JSON persistence layer of
the Todo_python application (src/todo_python/main.py), as a shallow embedding:
Python values flowing through `json` are modelled by a `Json` inductive, the
persisted file by `FileContent` (absent / not-well-formed / a parsed value),
and Python exceptions by `Except PyError`.
-/

namespace TodoPython

/-- A JSON value as produced by Python's `json.load` (an object is a `dict`,
whose keys are unique; we look keys up by first match). -/
inductive Json where
  | null
  | bool (b : Bool)
  | num (n : Int)
  | str (s : String)
  | arr (xs : List Json)
  | obj (kvs : List (String × Json))

/-- The Python exceptions that `TaskStorage.load_tasks` can meet: `KeyError`
from a missing dict key, `TypeError` from subscripting or iterating a
non-subscriptable / non-iterable value. (`json.JSONDecodeError` is modelled
directly by `FileContent.malformed`.) -/
inductive PyError where
  | keyError
  | typeError
deriving DecidableEq

/-- The content of the per-user tasks file, up to JSON parsing: the file may be
absent, hold bytes that are not well-formed JSON, or hold text parsing to a
JSON value. -/
inductive FileContent where
  | absent
  | malformed
  | wellFormed (j : Json)

/-- `Task.__init__`: five attributes, duck-typed as in Python (any value can be
stored in each field; the application itself only ever stores strings). -/
structure Task where
  name : Json
  priority : Json
  due_date : Json
  category : Json
  status : Json

/-- Python `==` between an arbitrary value and a string literal: true exactly
when the value is an equal string (comparison across types yields `False`). -/
def Json.eqStr (j : Json) (s : String) : Bool :=
  match j with
  | Json.str t => t == s
  | _ => false

/-- `Task.to_dict`. -/
def Task.to_dict (t : Task) : Json :=
  Json.obj [("name", t.name), ("priority", t.priority), ("due_date", t.due_date),
    ("category", t.category), ("status", t.status)]

/-- Key lookup in a parsed JSON object (a Python dict, keys unique). -/
def lookupKey (kvs : List (String × Json)) (k : String) : Option Json :=
  (kvs.find? (fun kv => kv.1 = k)).map (fun kv => kv.2)

/-- Python `data[k]`: `KeyError` when the dict lacks the key, `TypeError` when
`data` is not a dict (string-subscripting a list, int, string, ... raises
`TypeError`). -/
def getItem (data : Json) (k : String) : Except PyError Json :=
  match data with
  | Json.obj kvs =>
    match lookupKey kvs k with
    | some v => Except.ok v
    | none => Except.error PyError.keyError
  | _ => Except.error PyError.typeError

/-- `Task.from_dict`: reads the five keys in source order. -/
def Task.from_dict (data : Json) : Except PyError Task := do
  let n ← getItem data "name"
  let p ← getItem data "priority"
  let d ← getItem data "due_date"
  let c ← getItem data "category"
  let s ← getItem data "status"
  Except.ok ⟨n, p, d, c, s⟩

/-- `TaskStorage.save_tasks`: `json.dump` of `[task.to_dict() for task in tasks]`;
the file afterwards holds well-formed JSON text parsing to that array. -/
def save_tasks (tasks : List Task) : FileContent :=
  FileContent.wellFormed (Json.arr (tasks.map Task.to_dict))

/-- Python `for item in data`: lists yield their elements, dicts their keys,
strings their characters (as one-character strings); iterating any other JSON
value raises `TypeError`. -/
def pyIter (data : Json) : Except PyError (List Json) :=
  match data with
  | Json.arr xs => Except.ok xs
  | Json.obj kvs => Except.ok (kvs.map (fun kv => Json.str kv.1))
  | Json.str s => Except.ok (s.data.map (fun c => Json.str (String.mk [c])))
  | _ => Except.error PyError.typeError

/-- The list comprehension `[Task.from_dict(item) for item in data]`: items are
converted left to right, the first exception aborting the whole list. -/
def loadList : List Json → Except PyError (List Task)
  | [] => Except.ok []
  | item :: rest => do
    let t ← Task.from_dict item
    let ts ← loadList rest
    Except.ok (t :: ts)

/-- `TaskStorage.load_tasks`: absent file gives `[]`; a file that is not
well-formed JSON raises `json.JSONDecodeError`, which the `except` clause turns
into `[]`; `KeyError` from a record missing a key is likewise caught; any other
exception (in particular `TypeError`) propagates to the caller. -/
def load_tasks (fc : FileContent) : Except PyError (List Task) :=
  match fc with
  | FileContent.absent => Except.ok []
  | FileContent.malformed => Except.ok []
  | FileContent.wellFormed j =>
    match (do
      let items ← pyIter j
      loadList items : Except PyError (List Task)) with
    | Except.ok ts => Except.ok ts
    | Except.error PyError.keyError => Except.ok []
    | Except.error e => Except.error e

/-! ### Login gate (LoginWindow.login) and string helpers -/

/-- The characters Python's `str.strip()` removes (ASCII whitespace). -/
def pyIsSpace (c : Char) : Bool :=
  c = ' ' || c = '\t' || c = '\n' || c = '\x0d' || c = '\x0b' || c = '\x0c'

/-- Python `s.strip()`. -/
def pyStrip (s : String) : String :=
  String.mk (((s.data.dropWhile pyIsSpace).reverse.dropWhile pyIsSpace).reverse)

/-- One character of Python `str.isalnum()` (ASCII letters and digits). -/
def pyIsAlnumChar (c : Char) : Bool :=
  c.isAlpha || c.isDigit

/-- Python `s.isalnum()`: non-empty and every character alphanumeric. -/
def pyIsAlnum (s : String) : Bool :=
  !s.isEmpty && s.data.all pyIsAlnumChar

/-- Outcome of `LoginWindow.login`: either the session starts with the given
username, or an error dialog is shown and no session is created. -/
inductive LoginResult where
  | success (username : String)
  | errEmpty
  | errInvalidChars
deriving DecidableEq

/-- `LoginWindow.login`: strips the entry text, rejects the empty result, then
rejects a result that is not alphanumeric; otherwise hands the stripped
username to `on_login_success`. -/
def login (input : String) : LoginResult :=
  let username := pyStrip input
  if username = "" then LoginResult.errEmpty
  else if !(pyIsAlnum username) then LoginResult.errInvalidChars
  else LoginResult.success username

/-! ### Date validation (ToDoApp.validate_date)

`datetime.strptime(date_str, "%Y-%m-%d")` in CPython matches the regex
`(?P<Y>\d\d\d\d)\-(?P<m>1[0-2]|0[1-9]|[1-9])\-(?P<d>3[0-1]|[1-2]\d|0[1-9]|[1-9])`
against the whole string (a leftover suffix raises `ValueError`), then builds
`datetime(year, month, day)`, which raises `ValueError` unless
`1 <= year <= 9999` and the day exists in that month of that year.
Backtracking over the alternations makes acceptance equivalent to: some split
of the string into the three fields matches and consumes everything; the split
consuming the whole string is unique (the field patterns cannot contain the
literal separator), so trying every candidate split is faithful. As everywhere
in this embedding, `\d` and friends are modelled over ASCII. -/

/-- Numeric value of a digit character. -/
def digitVal (c : Char) : Nat := c.toNat - '0'.toNat

/-- The regex fragment `\d\d\d\d` for `%Y`: four digits, their value, and the
rest of the input. -/
def takeYear : List Char → Option (Nat × List Char)
  | c1 :: c2 :: c3 :: c4 :: rest =>
    if c1.isDigit && c2.isDigit && c3.isDigit && c4.isDigit then
      some (1000 * digitVal c1 + 100 * digitVal c2 + 10 * digitVal c3 + digitVal c4, rest)
    else none
  | _ => none

/-- The two-digit alternatives of `%m` / `%d` (`1[0-2]|0[1-9]` resp.
`3[0-1]|[1-2]\d|0[1-9]`): exactly the two-digit strings with value between 1
and `bound`. -/
def twoDigitCands (bound : Nat) : List Char → List (Nat × List Char)
  | c1 :: c2 :: rest =>
    if c1.isDigit && c2.isDigit then
      let v := 10 * digitVal c1 + digitVal c2
      if 1 ≤ v && v ≤ bound then [(v, rest)] else []
    else []
  | _ => []

/-- The one-digit alternative `[1-9]` of `%m` / `%d`. -/
def oneDigitCands : List Char → List (Nat × List Char)
  | c1 :: rest => if c1.isDigit && 1 ≤ digitVal c1 then [(digitVal c1, rest)] else []
  | [] => []

/-- The alternative ` [1-9]` of `%d` (a blank-padded day). -/
def spacePadCands : List Char → List (Nat × List Char)
  | c0 :: c1 :: rest =>
    if c0 = ' ' && c1.isDigit && 1 ≤ digitVal c1 then [(digitVal c1, rest)] else []
  | _ => []

/-- All ways the `%m` pattern (`1[0-2]|0[1-9]|[1-9]`) can match a prefix of the
input. -/
def monthCands (cs : List Char) : List (Nat × List Char) :=
  twoDigitCands 12 cs ++ oneDigitCands cs

/-- All ways the `%d` pattern (`3[0-1]|[1-2]\d|0[1-9]|[1-9]| [1-9]`) can match
a prefix of the input. -/
def dayCands (cs : List Char) : List (Nat × List Char) :=
  twoDigitCands 31 cs ++ oneDigitCands cs ++ spacePadCands cs

/-- Gregorian leap year, as in Python's `datetime`. -/
def isLeap (y : Nat) : Bool :=
  y % 4 = 0 && (y % 100 ≠ 0 || y % 400 = 0)

/-- Days in a month, as in Python's `datetime`. -/
def daysInMonth (y m : Nat) : Nat :=
  if m = 2 then (if isLeap y then 29 else 28)
  else if m = 4 || m = 6 || m = 9 || m = 11 then 30
  else 31

/-- The checks of the `datetime(year, month, day)` constructor. -/
def validYMD (y m d : Nat) : Bool :=
  1 ≤ y && y ≤ 9999 && 1 ≤ m && m ≤ 12 && 1 ≤ d && d ≤ daysInMonth y m

/-- The tail of the format after `%Y-%m`: the second literal `-`, then `%d`,
then end of input, then the `datetime` constructor checks. -/
def afterMonth (y m : Nat) : List Char → Bool
  | '-' :: rest3 => (dayCands rest3).any (fun dc => dc.2.isEmpty && validYMD y m dc.1)
  | _ => false

/-- The tail of the format after `%Y`: the first literal `-`, then `%m`, then
the rest. -/
def afterYear (y : Nat) : List Char → Bool
  | '-' :: rest2 => (monthCands rest2).any (fun mc => afterMonth y mc.1 mc.2)
  | _ => false

/-- `datetime.strptime(s, "%Y-%m-%d")` succeeds (no `ValueError`). -/
def strptimeYmd (s : String) : Bool :=
  match takeYear s.data with
  | none => false
  | some yr => afterYear yr.1 yr.2

/-- `ToDoApp.validate_date`: the empty string is allowed, otherwise defer to
`strptime`. -/
def validate_date (s : String) : Bool :=
  s.isEmpty || strptimeYmd s

/-! ### Application state and CRUD operations (ToDoApp) -/

/-- The mutable state an operation can touch: the in-memory task list, the
currently selected index, and the per-user persistence file. -/
structure AppState where
  tasks : List Task
  selected_index : Option Nat
  file : FileContent

/-- How a button handler ends: a successful mutation, one of the error dialogs,
the informational "already completed" dialog, a declined confirmation, or a
propagating `IndexError` (unreachable through the UI, where the selection
always references an existing row). -/
inductive OpResult where
  | ok
  | errEmptyName
  | errBadDate
  | errNoSelection
  | alreadyCompleted
  | cancelled
  | errIndex
deriving DecidableEq

/-- `ToDoApp.add_task`, with the raw form fields as input (`get_form_data`
strips the name and the due date): validates, appends, saves, and clears the
form (which clears the selection). -/
def add_task (st : AppState) (rawName priority rawDue category : String) :
    AppState × OpResult :=
  let name := pyStrip rawName
  let due := pyStrip rawDue
  if name = "" then (st, OpResult.errEmptyName)
  else if !(validate_date due) then (st, OpResult.errBadDate)
  else
    let t : Task := ⟨Json.str name, Json.str priority, Json.str due,
      Json.str category, Json.str "Pending"⟩
    let tasks := st.tasks ++ [t]
    (⟨tasks, none, save_tasks tasks⟩, OpResult.ok)

/-- `ToDoApp.update_task`: requires a selection, validates, then overwrites the
four editable fields of the selected task in place (status untouched) and
saves; the selection is not cleared. -/
def update_task (st : AppState) (rawName priority rawDue category : String) :
    AppState × OpResult :=
  match st.selected_index with
  | none => (st, OpResult.errNoSelection)
  | some i =>
    let name := pyStrip rawName
    let due := pyStrip rawDue
    if name = "" then (st, OpResult.errEmptyName)
    else if !(validate_date due) then (st, OpResult.errBadDate)
    else if h : i < st.tasks.length then
      let old := st.tasks.get ⟨i, h⟩
      let t2 : Task := ⟨Json.str name, Json.str priority, Json.str due,
        Json.str category, old.status⟩
      let tasks := st.tasks.set i t2
      (⟨tasks, st.selected_index, save_tasks tasks⟩, OpResult.ok)
    else (st, OpResult.errIndex)

/-- `ToDoApp.delete_task`: requires a selection, reads the task (raising
`IndexError` on a stale index), asks for confirmation, then deletes, saves and
clears the selection. -/
def delete_task (st : AppState) (confirm : Bool) : AppState × OpResult :=
  match st.selected_index with
  | none => (st, OpResult.errNoSelection)
  | some i =>
    if i < st.tasks.length then
      if confirm then
        let tasks := st.tasks.eraseIdx i
        (⟨tasks, none, save_tasks tasks⟩, OpResult.ok)
      else (st, OpResult.cancelled)
    else (st, OpResult.errIndex)

/-- `ToDoApp.mark_completed`: requires a selection; a task already Completed
only produces the informational dialog; otherwise the status becomes
Completed and the list is saved. -/
def mark_completed (st : AppState) : AppState × OpResult :=
  match st.selected_index with
  | none => (st, OpResult.errNoSelection)
  | some i =>
    if h : i < st.tasks.length then
      let t := st.tasks.get ⟨i, h⟩
      if t.status.eqStr "Completed" then (st, OpResult.alreadyCompleted)
      else
        let t2 : Task := ⟨t.name, t.priority, t.due_date, t.category, Json.str "Completed"⟩
        let tasks := st.tasks.set i t2
        (⟨tasks, st.selected_index, save_tasks tasks⟩, OpResult.ok)
    else (st, OpResult.errIndex)

/-! ### Spec-side definitions

These follow the words of the specification (not the source), for comparison
with the embedded code. -/

/-- Value of a digit string, most significant first. -/
def digitsToNat (cs : List Char) : Nat :=
  cs.foldl (fun a c => 10 * a + digitVal c) 0

/-- Spec-side date format, as the claim words it: 4-digit year, `-`, 2-digit
month, `-`, 2-digit day, denoting a valid calendar date. -/
def specDateStrict (s : String) : Bool :=
  match s.data with
  | [y1, y2, y3, y4, '-', m1, m2, '-', d1, d2] =>
    y1.isDigit && y2.isDigit && y3.isDigit && y4.isDigit &&
    m1.isDigit && m2.isDigit && d1.isDigit && d2.isDigit &&
    validYMD (digitsToNat [y1, y2, y3, y4]) (digitsToNat [m1, m2])
      (digitsToNat [d1, d2])
  | _ => false

/-- A run of digits denoting the value `v`. -/
def DigitField (cs : List Char) (v : Nat) : Prop :=
  (∀ c ∈ cs, c.isDigit = true) ∧ digitsToNat cs = v

/-- The month field of the amended format: one or two digits. -/
def MonthField (cs : List Char) (v : Nat) : Prop :=
  (cs.length = 1 ∨ cs.length = 2) ∧ DigitField cs v

/-- The day field of the amended format: one or two digits, or a blank followed
by one digit. -/
def DayField (cs : List Char) (v : Nat) : Prop :=
  ((cs.length = 1 ∨ cs.length = 2) ∧ DigitField cs v) ∨
    (∃ c1, cs = [' ', c1] ∧ c1.isDigit = true ∧ v = digitVal c1)

/-- The amended date format: 4-digit year, `-`, 1-or-2-digit month, `-`,
1-or-2-digit (or blank-padded 1-digit) day, denoting a valid calendar date
with year at least 1. -/
def SpecDateRelaxed (s : String) : Prop :=
  ∃ (ys ms ds : List Char) (y m d : Nat),
    s.data = ys ++ '-' :: (ms ++ '-' :: ds) ∧
    ys.length = 4 ∧ DigitField ys y ∧
    MonthField ms m ∧ DayField ds d ∧
    validYMD y m d = true

/-- A value that is not JSON `null` (Python `None`). -/
def notNull : Json → Bool
  | Json.null => false
  | _ => true

/-- Spec-side: all five fields of a task are non-null. -/
def fieldsNonNull (t : Task) : Bool :=
  notNull t.name && notNull t.priority && notNull t.due_date &&
    notNull t.category && notNull t.status

/-- Spec-side: the due date, whenever it is a non-empty string, parses as a
valid calendar date (`validate_date` already accepts the empty string). -/
def dueDateOk (t : Task) : Bool :=
  match t.due_date with
  | Json.str s => validate_date s
  | _ => true

/-- The task invariant established by the add/update paths: every field is a
string, the name is non-empty, and the due date is empty or a valid date. -/
def taskInv (t : Task) : Bool :=
  (match t.name with
   | Json.str s => !s.isEmpty
   | _ => false) &&
  (match t.priority with
   | Json.str _ => true
   | _ => false) &&
  (match t.due_date with
   | Json.str s => validate_date s
   | _ => false) &&
  (match t.category with
   | Json.str _ => true
   | _ => false) &&
  (match t.status with
   | Json.str _ => true
   | _ => false)

/-- The invariant, over a whole task list. -/
def listInv (l : List Task) : Prop :=
  ∀ t ∈ l, taskInv t = true

/-! ### Persistence round-trip -/

theorem from_dict_to_dict (t : Task) : Task.from_dict (Task.to_dict t) = Except.ok t := rfl

theorem loadList_map_to_dict (ts : List Task) :
    loadList (ts.map Task.to_dict) = Except.ok ts := by
  induction ts with
  | nil => rfl
  | cons t rest ih =>
    simp only [List.map_cons, loadList, from_dict_to_dict, ih]
    rfl

theorem load_save (ts : List Task) : load_tasks (save_tasks ts) = Except.ok ts := by
  simp only [load_tasks, save_tasks, pyIter, loadList_map_to_dict, bind, Except.bind]

/-- Claim C1: saving any sequence of tasks and loading it back yields an equal
sequence, field for field and in the same order. -/
theorem c1_save_load_roundtrip (ts : List Task) :
    load_tasks (save_tasks ts) = Except.ok ts :=
  load_save ts

/-! ### Corrupt or exotic file contents -/

/-- The five keys `Task.from_dict` reads. -/
def requiredKeys : List String := ["name", "priority", "due_date", "category", "status"]

theorem from_dict_obj_cases (kvs : List (String × Json)) :
    (∃ t, Task.from_dict (Json.obj kvs) = Except.ok t) ∨
      Task.from_dict (Json.obj kvs) = Except.error PyError.keyError := by
  simp only [Task.from_dict, getItem, bind, Except.bind]
  cases lookupKey kvs "name" <;> cases lookupKey kvs "priority" <;>
    cases lookupKey kvs "due_date" <;> cases lookupKey kvs "category" <;>
    cases lookupKey kvs "status" <;> simp

theorem from_dict_missing_key {kvs : List (String × Json)} {k : String}
    (hk : k ∈ requiredKeys) (h : lookupKey kvs k = none) :
    Task.from_dict (Json.obj kvs) = Except.error PyError.keyError := by
  simp only [requiredKeys, List.mem_cons, List.not_mem_nil, or_false] at hk
  rcases hk with rfl | rfl | rfl | rfl | rfl <;>
    simp only [Task.from_dict, getItem, bind, Except.bind, h] <;>
    (cases lookupKey kvs "name" <;> cases lookupKey kvs "priority" <;>
      cases lookupKey kvs "due_date" <;> cases lookupKey kvs "category" <;>
      cases lookupKey kvs "status" <;> simp_all)

theorem loadList_missing_key (items : List Json)
    (hobj : ∀ j ∈ items, ∃ kvs, j = Json.obj kvs)
    (hmiss : ∃ j ∈ items, ∃ kvs k, j = Json.obj kvs ∧ k ∈ requiredKeys ∧
      lookupKey kvs k = none) :
    loadList items = Except.error PyError.keyError := by
  induction items with
  | nil => simp at hmiss
  | cons j rest ih =>
    obtain ⟨kvs, rfl⟩ := hobj _ (List.mem_cons_self j rest)
    rcases from_dict_obj_cases kvs with ⟨t, ht⟩ | herr
    · rcases hmiss with ⟨j2, hj2, kvs2, k, hj2eq, hk, hlk⟩
      rcases List.mem_cons.mp hj2 with rfl | htail
      · obtain rfl : kvs = kvs2 := by injection hj2eq
        rw [from_dict_missing_key hk hlk] at ht
        cases ht
      · have hrest := ih (fun x hx => hobj x (List.mem_cons_of_mem _ hx))
          ⟨j2, htail, kvs2, k, hj2eq, hk, hlk⟩
        simp only [loadList, ht, hrest, bind, Except.bind]
    · simp only [loadList, herr, bind, Except.bind]

/-- Claim C7: loading an absent file, a file that is not well-formed JSON, or a
file holding an array of records one of which lacks a required field, yields
the empty sequence without raising; the whole content is discarded. -/
theorem c7_load_corruption (items : List Json)
    (hobj : ∀ j ∈ items, ∃ kvs, j = Json.obj kvs)
    (hmiss : ∃ j ∈ items, ∃ kvs k, j = Json.obj kvs ∧ k ∈ requiredKeys ∧
      lookupKey kvs k = none) :
    load_tasks FileContent.absent = Except.ok [] ∧
    load_tasks FileContent.malformed = Except.ok [] ∧
    load_tasks (FileContent.wellFormed (Json.arr items)) = Except.ok [] := by
  refine ⟨rfl, rfl, ?_⟩
  simp only [load_tasks, pyIter, loadList_missing_key items hobj hmiss, bind, Except.bind]

theorem c7_load_corruption_witness :
    load_tasks (FileContent.wellFormed
      (Json.arr [Json.obj [("name", Json.str "b")]])) = Except.ok [] := by
  refine (c7_load_corruption [Json.obj [("name", Json.str "b")]] ?_ ?_).2.2
  · intro j hj
    rcases List.mem_singleton.mp hj with rfl
    exact ⟨_, rfl⟩
  · exact ⟨Json.obj [("name", Json.str "b")], List.mem_singleton.mpr rfl,
      [("name", Json.str "b")], "status", rfl, by decide, rfl⟩

/-- Claim C10: a well-formed JSON file whose top-level array holds a non-object
(a number, or a string) makes `load_tasks` raise `TypeError` to the caller:
only `json.JSONDecodeError` and `KeyError` are caught. -/
theorem c10_load_not_total :
    load_tasks (FileContent.wellFormed (Json.arr [Json.num 3])) =
      Except.error PyError.typeError ∧
    load_tasks (FileContent.wellFormed (Json.arr [Json.str "x"])) =
      Except.error PyError.typeError :=
  ⟨rfl, rfl⟩

/-! ### CRUD operation contracts -/

/-- Claim C2: with a non-empty stripped name and a valid (or empty) stripped
due date, `add_task` succeeds, appends exactly one Pending task built from the
input to the end of the list leaving the existing tasks unchanged, and the
persisted file reloads to exactly that new list. -/
theorem c2_add_task (st : AppState) (rawName p rawDue c : String)
    (hn : pyStrip rawName ≠ "") (hd : validate_date (pyStrip rawDue) = true) :
    (add_task st rawName p rawDue c).2 = OpResult.ok ∧
    (add_task st rawName p rawDue c).1.tasks =
      st.tasks ++ [⟨Json.str (pyStrip rawName), Json.str p, Json.str (pyStrip rawDue),
        Json.str c, Json.str "Pending"⟩] ∧
    load_tasks (add_task st rawName p rawDue c).1.file =
      Except.ok (st.tasks ++ [⟨Json.str (pyStrip rawName), Json.str p,
        Json.str (pyStrip rawDue), Json.str c, Json.str "Pending"⟩]) := by
  have hmain : add_task st rawName p rawDue c =
      (⟨st.tasks ++ [⟨Json.str (pyStrip rawName), Json.str p, Json.str (pyStrip rawDue),
          Json.str c, Json.str "Pending"⟩], none,
        save_tasks (st.tasks ++ [⟨Json.str (pyStrip rawName), Json.str p,
          Json.str (pyStrip rawDue), Json.str c, Json.str "Pending"⟩])⟩, OpResult.ok) := by
    simp [add_task, hn, hd]
  rw [hmain]
  exact ⟨rfl, rfl, load_save _⟩

theorem c2_add_task_witness :
    pyStrip " a " ≠ "" ∧ validate_date (pyStrip "2024-02-29") = true ∧
    (add_task ⟨[], none, FileContent.absent⟩ " a " "High" "2024-02-29" "Work").2 =
      OpResult.ok :=
  ⟨by decide, by decide,
    (c2_add_task ⟨[], none, FileContent.absent⟩ " a " "High" "2024-02-29" "Work"
      (by decide) (by decide)).1⟩

/-- Claim C4: with a selection on a valid index and valid replacement fields,
`update_task` succeeds, replaces exactly the four editable fields of the task
at that index, preserves its status and its position, and leaves every other
position unchanged. -/
theorem c4_update_task (st : AppState) (i : Nat) (rawName p rawDue c : String)
    (hsel : st.selected_index = some i) (hi : i < st.tasks.length)
    (hn : pyStrip rawName ≠ "") (hd : validate_date (pyStrip rawDue) = true) :
    (update_task st rawName p rawDue c).2 = OpResult.ok ∧
    (update_task st rawName p rawDue c).1.tasks.length = st.tasks.length ∧
    (update_task st rawName p rawDue c).1.tasks[i]? =
      some ⟨Json.str (pyStrip rawName), Json.str p, Json.str (pyStrip rawDue),
        Json.str c, (st.tasks.get ⟨i, hi⟩).status⟩ ∧
    (∀ j, j ≠ i → (update_task st rawName p rawDue c).1.tasks[j]? = st.tasks[j]?) ∧
    (update_task st rawName p rawDue c).1.selected_index = st.selected_index := by
  have hmain : update_task st rawName p rawDue c =
      (⟨st.tasks.set i ⟨Json.str (pyStrip rawName), Json.str p, Json.str (pyStrip rawDue),
          Json.str c, (st.tasks.get ⟨i, hi⟩).status⟩, st.selected_index,
        save_tasks (st.tasks.set i ⟨Json.str (pyStrip rawName), Json.str p,
          Json.str (pyStrip rawDue), Json.str c, (st.tasks.get ⟨i, hi⟩).status⟩)⟩,
        OpResult.ok) := by
    simp [update_task, hsel, hn, hd, hi]
  rw [hmain]
  exact ⟨rfl, List.length_set st.tasks i _, List.getElem?_set_self hi,
    fun j hj => List.getElem?_set_ne (Ne.symm hj), rfl⟩

theorem c4_update_task_witness :
    (⟨[⟨Json.str "a", Json.str "Low", Json.str "", Json.str "Personal",
        Json.str "Completed"⟩], some 0, FileContent.absent⟩ :
      AppState).selected_index = some 0 ∧
    (update_task ⟨[⟨Json.str "a", Json.str "Low", Json.str "", Json.str "Personal",
        Json.str "Completed"⟩], some 0, FileContent.absent⟩ "b" "High" "" "Work").2 =
      OpResult.ok :=
  ⟨rfl, (c4_update_task ⟨[⟨Json.str "a", Json.str "Low", Json.str "", Json.str "Personal",
      Json.str "Completed"⟩], some 0, FileContent.absent⟩ 0 "b" "High" "" "Work"
      rfl (by decide) (by decide) (by decide)).1⟩

/-- Claim C5: with a selection on a valid index and confirmation given,
`delete_task` removes exactly the task at that index: the length drops by one,
earlier positions are untouched, later tasks shift down by one, and the
selection is cleared. -/
theorem c5_delete_task (st : AppState) (i : Nat)
    (hsel : st.selected_index = some i) (hi : i < st.tasks.length) :
    (delete_task st true).2 = OpResult.ok ∧
    (delete_task st true).1.tasks = st.tasks.eraseIdx i ∧
    (delete_task st true).1.tasks.length = st.tasks.length - 1 ∧
    (∀ j, j < i → (delete_task st true).1.tasks[j]? = st.tasks[j]?) ∧
    (∀ j, i ≤ j → (delete_task st true).1.tasks[j]? = st.tasks[j + 1]?) ∧
    (delete_task st true).1.selected_index = none := by
  have hmain : delete_task st true =
      (⟨st.tasks.eraseIdx i, none, save_tasks (st.tasks.eraseIdx i)⟩, OpResult.ok) := by
    simp [delete_task, hsel, hi]
  rw [hmain]
  exact ⟨rfl, rfl, List.length_eraseIdx_of_lt hi,
    fun j hj => List.getElem?_eraseIdx_of_lt st.tasks i j hj,
    fun j hj => List.getElem?_eraseIdx_of_ge st.tasks i j hj, rfl⟩

theorem c5_delete_task_witness :
    (⟨[⟨Json.str "a", Json.str "Low", Json.str "", Json.str "Personal",
        Json.str "Pending"⟩], some 0, FileContent.absent⟩ :
      AppState).selected_index = some 0 ∧
    (delete_task ⟨[⟨Json.str "a", Json.str "Low", Json.str "", Json.str "Personal",
        Json.str "Pending"⟩], some 0, FileContent.absent⟩ true).2 = OpResult.ok :=
  ⟨rfl, (c5_delete_task ⟨[⟨Json.str "a", Json.str "Low", Json.str "", Json.str "Personal",
      Json.str "Pending"⟩], some 0, FileContent.absent⟩ 0 rfl (by decide)).1⟩

/-- Claim C6: every outcome other than a successful mutation — a validation
rejection of `add_task` or `update_task`, a missing selection in `update_task`,
`delete_task` or `mark_completed`, the informational "already completed"
notice, a declined confirmation, or a stale index — leaves the whole
application state (task list, selection, persisted file) exactly as it was. -/
theorem c6_errors_preserve_state (st : AppState) (rawName p rawDue c : String)
    (confirm : Bool) :
    ((add_task st rawName p rawDue c).2 ≠ OpResult.ok →
      (add_task st rawName p rawDue c).1 = st) ∧
    ((update_task st rawName p rawDue c).2 ≠ OpResult.ok →
      (update_task st rawName p rawDue c).1 = st) ∧
    ((delete_task st confirm).2 ≠ OpResult.ok → (delete_task st confirm).1 = st) ∧
    ((mark_completed st).2 ≠ OpResult.ok → (mark_completed st).1 = st) := by
  refine ⟨?_, ?_, ?_, ?_⟩
  · simp only [add_task]
    split
    · exact fun _ => rfl
    · split
      · exact fun _ => rfl
      · exact fun h => absurd rfl h
  · simp only [update_task]
    split
    · exact fun _ => rfl
    · split
      · exact fun _ => rfl
      · split
        · exact fun _ => rfl
        · split
          · exact fun h => absurd rfl h
          · exact fun _ => rfl
  · simp only [delete_task]
    split
    · exact fun _ => rfl
    · split
      · split
        · exact fun h => absurd rfl h
        · exact fun _ => rfl
      · exact fun _ => rfl
  · simp only [mark_completed]
    split
    · exact fun _ => rfl
    · split
      · split
        · exact fun _ => rfl
        · exact fun h => absurd rfl h
      · exact fun _ => rfl

theorem c6_errors_preserve_state_witness :
    (add_task ⟨[], none, FileContent.absent⟩ "  " "Low" "" "Personal").1 =
      ⟨[], none, FileContent.absent⟩ ∧
    (update_task ⟨[], none, FileContent.absent⟩ "a" "Low" "" "Personal").1 =
      ⟨[], none, FileContent.absent⟩ ∧
    (delete_task ⟨[], none, FileContent.absent⟩ true).1 =
      ⟨[], none, FileContent.absent⟩ ∧
    (mark_completed ⟨[⟨Json.str "a", Json.str "Low", Json.str "", Json.str "Personal",
        Json.str "Completed"⟩], some 0, FileContent.absent⟩).1 =
      ⟨[⟨Json.str "a", Json.str "Low", Json.str "", Json.str "Personal",
        Json.str "Completed"⟩], some 0, FileContent.absent⟩ :=
  ⟨(c6_errors_preserve_state ⟨[], none, FileContent.absent⟩ "  " "Low" "" "Personal"
      true).1 (by decide),
   (c6_errors_preserve_state ⟨[], none, FileContent.absent⟩ "a" "Low" "" "Personal"
      true).2.1 (by decide),
   (c6_errors_preserve_state ⟨[], none, FileContent.absent⟩ "a" "Low" "" "Personal"
      true).2.2.1 (by decide),
   (c6_errors_preserve_state ⟨[⟨Json.str "a", Json.str "Low", Json.str "",
      Json.str "Personal", Json.str "Completed"⟩], some 0, FileContent.absent⟩
      "a" "Low" "" "Personal" true).2.2.2 (by decide)⟩

/-! ### Login -/

theorem pyIsAlnum_eq_true {s : String} (hne : s ≠ "")
    (hall : s.data.all pyIsAlnumChar = true) : pyIsAlnum s = true := by
  have hie : s.isEmpty = false := by
    cases hb : s.isEmpty
    · rfl
    · exact absurd ((String.isEmpty_iff s).mp hb) hne
  simp [pyIsAlnum, hie, hall]

/-- Claim C8: `login` strips the input, then succeeds exactly when the stripped
input is non-empty and entirely alphanumeric; the spec's four vectors behave as
stated, and a rejection produces an error dialog, not a session. -/
theorem c8_login (s : String) :
    (login s = LoginResult.success (pyStrip s) ↔
      pyStrip s ≠ "" ∧ (pyStrip s).data.all pyIsAlnumChar = true) ∧
    login "alice1" = LoginResult.success "alice1" ∧
    login "" = LoginResult.errEmpty ∧
    login "al ice" = LoginResult.errInvalidChars ∧
    login "alice!" = LoginResult.errInvalidChars := by
  refine ⟨?_, by decide, by decide, by decide, by decide⟩
  simp only [login]
  split_ifs with h1 h2
  · simp [h1]
  · constructor
    · intro h; cases h
    · rintro ⟨hne, hall⟩
      rw [pyIsAlnum_eq_true hne hall] at h2
      cases h2
  · have hia : pyIsAlnum (pyStrip s) = true := by
      cases hb : pyIsAlnum (pyStrip s)
      · rw [hb] at h2; exact absurd rfl h2
      · rfl
    have hall : (pyStrip s).data.all pyIsAlnumChar = true := by
      cases hb : (pyStrip s).data.all pyIsAlnumChar
      · unfold pyIsAlnum at hia
        rw [hb] at hia
        simp at hia
      · rfl
    simp [h1, hall]

/-! ### The task invariant -/

/-- Claim C9 (counterexample): a well-formed file whose single record carries a
null name and a non-date due date loads without complaint, so after session
start the store holds a task whose fields are neither all non-null nor
date-valid. -/
theorem c9_counterexample :
    load_tasks (FileContent.wellFormed (Json.arr [Json.obj
      [("name", Json.null), ("priority", Json.str "Low"),
       ("due_date", Json.str "not-a-date"), ("category", Json.str "Personal"),
       ("status", Json.str "Pending")]])) =
      Except.ok [⟨Json.null, Json.str "Low", Json.str "not-a-date",
        Json.str "Personal", Json.str "Pending"⟩] ∧
    fieldsNonNull ⟨Json.null, Json.str "Low", Json.str "not-a-date",
      Json.str "Personal", Json.str "Pending"⟩ = false ∧
    dueDateOk ⟨Json.null, Json.str "Low", Json.str "not-a-date",
      Json.str "Personal", Json.str "Pending"⟩ = false :=
  ⟨rfl, rfl, by decide⟩

theorem validate_date_of_not_bad {b : Bool} (hd : ¬((!b) = true)) : b = true := by
  cases b
  · exact absurd rfl hd
  · rfl

theorem isEmpty_eq_false {s : String} (hne : s ≠ "") : s.isEmpty = false := by
  cases hb : s.isEmpty
  · rfl
  · exact absurd ((String.isEmpty_iff s).mp hb) hne

theorem listInv_add (st : AppState) (rawName p rawDue c : String)
    (h : listInv st.tasks) : listInv (add_task st rawName p rawDue c).1.tasks := by
  simp only [add_task]
  split
  · exact h
  · split
    · exact h
    · rename_i hn hd
      intro t ht
      rcases List.mem_append.mp ht with hmem | hmem
      · exact h t hmem
      · rcases List.mem_singleton.mp hmem with rfl
        simp [taskInv, isEmpty_eq_false hn, validate_date_of_not_bad hd]

theorem listInv_update (st : AppState) (rawName p rawDue c : String)
    (h : listInv st.tasks) : listInv (update_task st rawName p rawDue c).1.tasks := by
  simp only [update_task]
  split
  · exact h
  · split
    · exact h
    · split
      · exact h
      · split
        · rename_i i hsel2 hn hd hi
          intro t ht
          rcases List.mem_or_eq_of_mem_set ht with hmem | rfl
          · exact h t hmem
          · have hold := h _ (List.get_mem st.tasks i hi)
            simp only [taskInv, Bool.and_eq_true, List.get_eq_getElem] at hold
            obtain ⟨⟨⟨⟨h1, h2⟩, h3⟩, h4⟩, h5⟩ := hold
            simp [taskInv, isEmpty_eq_false hn, validate_date_of_not_bad hd, h5]
        · exact h

theorem listInv_delete (st : AppState) (confirm : Bool)
    (h : listInv st.tasks) : listInv (delete_task st confirm).1.tasks := by
  simp only [delete_task]
  split
  · exact h
  · split
    · split
      · intro t ht
        exact h t (List.mem_of_mem_eraseIdx ht)
      · exact h
    · exact h

theorem listInv_mark (st : AppState) (h : listInv st.tasks) :
    listInv (mark_completed st).1.tasks := by
  simp only [mark_completed]
  split
  · exact h
  · split
    · split
      · exact h
      · rename_i i hsome hi hnc
        intro t ht
        rcases List.mem_or_eq_of_mem_set ht with hmem | rfl
        · exact h t hmem
        · have hold := h _ (List.get_mem st.tasks i hi)
          simp only [taskInv, Bool.and_eq_true, List.get_eq_getElem] at hold
          obtain ⟨⟨⟨⟨h1, h2⟩, h3⟩, h4⟩, h5⟩ := hold
          simp [taskInv, h1, h2, h3, h4]
    · exact h

/-- Claim C9 (amended): the add and update paths build tasks satisfying the
invariant (string fields, non-empty name, empty-or-valid due date), and every
operation preserves the invariant over the whole store; session start via
`load` does **not** establish it — a loaded record may hold null or non-date
values (see the counterexample), only the presence of the five keys being
enforced. -/
theorem c9_task_invariant (st : AppState) (rawName p rawDue c : String)
    (confirm : Bool) (h : listInv st.tasks) :
    listInv (add_task st rawName p rawDue c).1.tasks ∧
    listInv (update_task st rawName p rawDue c).1.tasks ∧
    listInv (delete_task st confirm).1.tasks ∧
    listInv (mark_completed st).1.tasks :=
  ⟨listInv_add st rawName p rawDue c h, listInv_update st rawName p rawDue c h,
    listInv_delete st confirm h, listInv_mark st h⟩

theorem c9_task_invariant_witness :
    listInv (add_task ⟨[], none, FileContent.absent⟩ "a" "Low" "" "Personal").1.tasks :=
  (c9_task_invariant ⟨[], none, FileContent.absent⟩ "a" "Low" "" "Personal" true
    (fun t ht => absurd ht (List.not_mem_nil t))).1

/-! ### Date validation:
the backtracking regex model against the declarative format -/

theorem digitsToNat_one (c1 : Char) : digitsToNat [c1] = digitVal c1 := by
  simp [digitsToNat]

theorem digitsToNat_two (c1 c2 : Char) :
    digitsToNat [c1, c2] = 10 * digitVal c1 + digitVal c2 := by
  simp [digitsToNat]

theorem digitsToNat_four (c1 c2 c3 c4 : Char) :
    digitsToNat [c1, c2, c3, c4] =
      1000 * digitVal c1 + 100 * digitVal c2 + 10 * digitVal c3 + digitVal c4 := by
  simp [digitsToNat]
  ring

theorem takeYear_some {cs rest : List Char} {y : Nat}
    (h : takeYear cs = some (y, rest)) :
    ∃ c1 c2 c3 c4, cs = c1 :: c2 :: c3 :: c4 :: rest ∧
      c1.isDigit = true ∧ c2.isDigit = true ∧ c3.isDigit = true ∧ c4.isDigit = true ∧
      y = digitsToNat [c1, c2, c3, c4] := by
  match cs with
  | [] => simp [takeYear] at h
  | [c1] => simp [takeYear] at h
  | [c1, c2] => simp [takeYear] at h
  | [c1, c2, c3] => simp [takeYear] at h
  | c1 :: c2 :: c3 :: c4 :: rest2 =>
    simp only [takeYear] at h
    split at h
    · rename_i hd
      simp only [Option.some.injEq, Prod.mk.injEq] at h
      obtain ⟨hy, hrest⟩ := h
      simp only [Bool.and_eq_true] at hd
      exact ⟨c1, c2, c3, c4, by rw [hrest], hd.1.1.1, hd.1.1.2, hd.1.2, hd.2,
        by rw [digitsToNat_four, ← hy]⟩
    · cases h

theorem takeYear_cons {c1 c2 c3 c4 : Char} (rest : List Char)
    (h1 : c1.isDigit = true) (h2 : c2.isDigit = true) (h3 : c3.isDigit = true)
    (h4 : c4.isDigit = true) :
    takeYear (c1 :: c2 :: c3 :: c4 :: rest) =
      some (digitsToNat [c1, c2, c3, c4], rest) := by
  simp [takeYear, h1, h2, h3, h4, digitsToNat_four]

theorem mem_twoDigitCands {bound : Nat} {p : Nat × List Char} {cs : List Char}
    (h : p ∈ twoDigitCands bound cs) :
    ∃ c1 c2, cs = c1 :: c2 :: p.2 ∧ c1.isDigit = true ∧ c2.isDigit = true ∧
      digitsToNat [c1, c2] = p.1 ∧ 1 ≤ p.1 ∧ p.1 ≤ bound := by
  match cs with
  | [] => simp [twoDigitCands] at h
  | [c1] => simp [twoDigitCands] at h
  | c1 :: c2 :: rest =>
    simp only [twoDigitCands] at h
    split at h
    · rename_i hdig
      split at h
      · rename_i hv
        rcases List.mem_singleton.mp h with rfl
        simp only [Bool.and_eq_true] at hdig
        simp only [Bool.and_eq_true, decide_eq_true_eq] at hv
        exact ⟨c1, c2, rfl, hdig.1, hdig.2, digitsToNat_two c1 c2, hv.1, hv.2⟩
      · simp at h
    · simp at h

theorem mem_oneDigitCands {p : Nat × List Char} {cs : List Char}
    (h : p ∈ oneDigitCands cs) :
    ∃ c1, cs = c1 :: p.2 ∧ c1.isDigit = true ∧ digitsToNat [c1] = p.1 ∧ 1 ≤ p.1 := by
  match cs with
  | [] => simp [oneDigitCands] at h
  | c1 :: rest =>
    simp only [oneDigitCands] at h
    split at h
    · rename_i hc
      rcases List.mem_singleton.mp h with rfl
      simp only [Bool.and_eq_true, decide_eq_true_eq] at hc
      exact ⟨c1, rfl, hc.1, digitsToNat_one c1, hc.2⟩
    · simp at h

theorem mem_spacePadCands {p : Nat × List Char} {cs : List Char}
    (h : p ∈ spacePadCands cs) :
    ∃ c1, cs = ' ' :: c1 :: p.2 ∧ c1.isDigit = true ∧ p.1 = digitVal c1 ∧ 1 ≤ p.1 := by
  match cs with
  | [] => simp [spacePadCands] at h
  | [c0] => simp [spacePadCands] at h
  | c0 :: c1 :: rest =>
    simp only [spacePadCands] at h
    split at h
    · rename_i hc
      rcases List.mem_singleton.mp h with rfl
      simp only [Bool.and_eq_true, decide_eq_true_eq] at hc
      obtain ⟨⟨hsp, hdig⟩, hlo⟩ := hc
      exact ⟨c1, by rw [hsp], hdig, rfl, hlo⟩
    · simp at h

theorem twoDigitCands_mem {bound : Nat} {c1 c2 : Char} {v : Nat} (rest : List Char)
    (h1 : c1.isDigit = true) (h2 : c2.isDigit = true)
    (hv : v = 10 * digitVal c1 + digitVal c2) (hlo : 1 ≤ v) (hhi : v ≤ bound) :
    (v, rest) ∈ twoDigitCands bound (c1 :: c2 :: rest) := by
  subst hv
  simp [twoDigitCands, h1, h2, hlo, hhi]

theorem oneDigitCands_mem {c1 : Char} {v : Nat} (rest : List Char)
    (h1 : c1.isDigit = true) (hv : v = digitVal c1) (hlo : 1 ≤ v) :
    (v, rest) ∈ oneDigitCands (c1 :: rest) := by
  subst hv
  simp [oneDigitCands, h1, hlo]

theorem spacePadCands_mem {c1 : Char} {v : Nat} (rest : List Char)
    (h1 : c1.isDigit = true) (hv : v = digitVal c1) (hlo : 1 ≤ v) :
    (v, rest) ∈ spacePadCands (' ' :: c1 :: rest) := by
  subst hv
  simp [spacePadCands, h1, hlo]

theorem mem_monthCands {p : Nat × List Char} {cs : List Char}
    (h : p ∈ monthCands cs) : ∃ ms, cs = ms ++ p.2 ∧ MonthField ms p.1 := by
  rcases List.mem_append.mp h with h2 | h1
  · obtain ⟨c1, c2, rfl, hd1, hd2, hv, _, _⟩ := mem_twoDigitCands h2
    exact ⟨[c1, c2], rfl, Or.inr rfl, by simp [List.forall_mem_cons, hd1, hd2], hv⟩
  · obtain ⟨c1, rfl, hd1, hv, _⟩ := mem_oneDigitCands h1
    exact ⟨[c1], rfl, Or.inl rfl, by simp [List.forall_mem_cons, hd1], hv⟩

theorem mem_dayCands {p : Nat × List Char} {cs : List Char}
    (h : p ∈ dayCands cs) : ∃ ds, cs = ds ++ p.2 ∧ DayField ds p.1 := by
  rcases List.mem_append.mp h with h12 | h4
  · rcases List.mem_append.mp h12 with h2 | h3
    · obtain ⟨c1, c2, rfl, hd1, hd2, hv, _, _⟩ := mem_twoDigitCands h2
      exact ⟨[c1, c2], rfl, Or.inl ⟨Or.inr rfl,
        by simp [List.forall_mem_cons, hd1, hd2], hv⟩⟩
    · obtain ⟨c1, rfl, hd1, hv, _⟩ := mem_oneDigitCands h3
      exact ⟨[c1], rfl, Or.inl ⟨Or.inl rfl, by simp [List.forall_mem_cons, hd1], hv⟩⟩
  · obtain ⟨c1, rfl, hd1, hv, _⟩ := mem_spacePadCands h4
    exact ⟨[' ', c1], rfl, Or.inr ⟨c1, rfl, hd1, hv⟩⟩

theorem monthCands_mem (rest : List Char) {ms : List Char} {v : Nat}
    (hf : MonthField ms v) (hlo : 1 ≤ v) (hhi : v ≤ 12) :
    (v, rest) ∈ monthCands (ms ++ rest) := by
  obtain ⟨hlen, hdig, hval⟩ := hf
  rcases hlen with h1 | h2
  · obtain ⟨c1, rfl⟩ := List.length_eq_one.mp h1
    rw [digitsToNat_one] at hval
    exact List.mem_append.mpr (Or.inr
      (oneDigitCands_mem rest (hdig c1 (by simp)) hval.symm hlo))
  · obtain ⟨c1, c2, rfl⟩ := List.length_eq_two.mp h2
    rw [digitsToNat_two] at hval
    exact List.mem_append.mpr (Or.inl
      (twoDigitCands_mem rest (hdig c1 (by simp)) (hdig c2 (by simp)) hval.symm hlo hhi))

theorem dayCands_mem (rest : List Char) {ds : List Char} {v : Nat}
    (hf : DayField ds v) (hlo : 1 ≤ v) (hhi : v ≤ 31) :
    (v, rest) ∈ dayCands (ds ++ rest) := by
  rcases hf with ⟨hlen, hdig, hval⟩ | ⟨c1, rfl, hd1, hv⟩
  · rcases hlen with h1 | h2
    · obtain ⟨c1, rfl⟩ := List.length_eq_one.mp h1
      rw [digitsToNat_one] at hval
      exact List.mem_append.mpr (Or.inl (List.mem_append.mpr (Or.inr
        (oneDigitCands_mem rest (hdig c1 (by simp)) hval.symm hlo))))
    · obtain ⟨c1, c2, rfl⟩ := List.length_eq_two.mp h2
      rw [digitsToNat_two] at hval
      exact List.mem_append.mpr (Or.inl (List.mem_append.mpr (Or.inl
        (twoDigitCands_mem rest (hdig c1 (by simp)) (hdig c2 (by simp)) hval.symm hlo hhi))))
  · exact List.mem_append.mpr (Or.inr (spacePadCands_mem rest hd1 hv hlo))

theorem daysInMonth_le_31 (y m : Nat) : daysInMonth y m ≤ 31 := by
  unfold daysInMonth
  split_ifs <;> omega

theorem validYMD_true {y m d : Nat} (h : validYMD y m d = true) :
    1 ≤ y ∧ y ≤ 9999 ∧ 1 ≤ m ∧ m ≤ 12 ∧ 1 ≤ d ∧ d ≤ daysInMonth y m := by
  simp only [validYMD, Bool.and_eq_true, decide_eq_true_eq] at h
  exact ⟨h.1.1.1.1.1, h.1.1.1.1.2, h.1.1.1.2, h.1.1.2, h.1.2, h.2⟩

theorem length_eq_four_exists {l : List Char} (h : l.length = 4) :
    ∃ c1 c2 c3 c4, l = [c1, c2, c3, c4] := by
  match l with
  | [] => simp at h
  | [_] => simp at h
  | [_, _] => simp at h
  | [_, _, _] => simp at h
  | [c1, c2, c3, c4] => exact ⟨c1, c2, c3, c4, rfl⟩
  | _ :: _ :: _ :: _ :: _ :: _ =>
    exfalso
    simp only [List.length_cons] at h
    omega

theorem afterYear_true {y : Nat} {rest : List Char} (h : afterYear y rest = true) :
    ∃ rest2, rest = '-' :: rest2 ∧
      (monthCands rest2).any (fun mc => afterMonth y mc.1 mc.2) = true := by
  unfold afterYear at h
  split at h
  · rename_i rest2
    exact ⟨rest2, rfl, h⟩
  · cases h

theorem afterMonth_true {y m : Nat} {rest : List Char} (h : afterMonth y m rest = true) :
    ∃ rest3, rest = '-' :: rest3 ∧
      (dayCands rest3).any (fun dc => dc.2.isEmpty && validYMD y m dc.1) = true := by
  unfold afterMonth at h
  split at h
  · rename_i rest3
    exact ⟨rest3, rfl, h⟩
  · cases h

theorem afterYear_cons (y : Nat) (rest2 : List Char) :
    afterYear y ('-' :: rest2) =
      (monthCands rest2).any (fun mc => afterMonth y mc.1 mc.2) := by
  simp [afterYear]

theorem afterMonth_cons (y m : Nat) (rest3 : List Char) :
    afterMonth y m ('-' :: rest3) =
      (dayCands rest3).any (fun dc => dc.2.isEmpty && validYMD y m dc.1) := by
  simp [afterMonth]

theorem strptimeYmd_iff (s : String) : strptimeYmd s = true ↔ SpecDateRelaxed s := by
  constructor
  · intro h
    unfold strptimeYmd at h
    cases hY : takeYear s.data with
    | none => rw [hY] at h; simp at h
    | some yr =>
      rw [hY] at h
      obtain ⟨c1, c2, c3, c4, hcs, hd1, hd2, hd3, hd4, hyv⟩ := takeYear_some hY
      obtain ⟨rest2, heq, h2⟩ := afterYear_true h
      obtain ⟨mc, hmcmem, hmc⟩ := List.any_eq_true.mp h2
      obtain ⟨ms, hms, hMF⟩ := mem_monthCands hmcmem
      obtain ⟨rest3, heq2, h3⟩ := afterMonth_true hmc
      obtain ⟨dc, hdcmem, hdc⟩ := List.any_eq_true.mp h3
      obtain ⟨hempty, hvalid⟩ := Bool.and_eq_true _ _ |>.mp hdc
      obtain ⟨ds, hds, hDF⟩ := mem_dayCands hdcmem
      have hnil : dc.2 = [] := List.isEmpty_iff.mp hempty
      refine ⟨[c1, c2, c3, c4], ms, ds, yr.1, mc.1, dc.1, ?_, rfl,
        ⟨by simp [List.forall_mem_cons, hd1, hd2, hd3, hd4], hyv.symm⟩,
        hMF, hDF, hvalid⟩
      rw [hcs, heq, hms, heq2, hds, hnil]
      simp
  · rintro ⟨ys, ms, ds, y, m, d, hdata, hlen, hysdig, hMF, hDF, hv⟩
    obtain ⟨hy1, hy2, hm1, hm2, hdd1, hdd2⟩ := validYMD_true hv
    have hd31 : d ≤ 31 := le_trans hdd2 (daysInMonth_le_31 y m)
    obtain ⟨c1, c2, c3, c4, rfl⟩ := length_eq_four_exists hlen
    have hdig1 : c1.isDigit = true := hysdig.1 c1 (by simp)
    have hdig2 : c2.isDigit = true := hysdig.1 c2 (by simp)
    have hdig3 : c3.isDigit = true := hysdig.1 c3 (by simp)
    have hdig4 : c4.isDigit = true := hysdig.1 c4 (by simp)
    unfold strptimeYmd
    rw [hdata]
    have hy : takeYear (c1 :: c2 :: c3 :: c4 :: ('-' :: (ms ++ '-' :: ds))) =
        some (y, '-' :: (ms ++ '-' :: ds)) := by
      rw [takeYear_cons _ hdig1 hdig2 hdig3 hdig4, hysdig.2]
    rw [show ([c1, c2, c3, c4] ++ '-' :: (ms ++ '-' :: ds)) =
      c1 :: c2 :: c3 :: c4 :: ('-' :: (ms ++ '-' :: ds)) from rfl, hy]
    show afterYear y ('-' :: (ms ++ '-' :: ds)) = true
    rw [afterYear_cons, List.any_eq_true]
    refine ⟨(m, '-' :: ds), monthCands_mem ('-' :: ds) hMF hm1 hm2, ?_⟩
    show afterMonth y m ('-' :: ds) = true
    rw [afterMonth_cons, List.any_eq_true]
    refine ⟨(d, []), ?_, by simp [hv]⟩
    have hdm := dayCands_mem [] hDF hdd1 hd31
    simpa using hdm

/-- Claim C3 (counterexample): the code's validator accepts `"2024-2-1"`,
which does not have a two-digit month and day, so the claimed fixed
4-2-2-digit format does not characterise the accepted strings. -/
theorem c3_counterexample :
    validate_date "2024-2-1" = true ∧ specDateStrict "2024-2-1" = false ∧
      ("2024-2-1" : String) ≠ "" := by
  refine ⟨by decide, by decide, by decide⟩

/-- Claim C3 (amended): the spec's four vectors hold, and in general a string
is accepted exactly when it is empty or splits as a 4-digit year, `-`, a 1-or-2
digit month, `-`, and a 1-or-2-digit (or blank-padded single-digit) day,
denoting a valid calendar date of year at least 1 (leap years included). -/
theorem c3_date_validation (s : String) :
    (validate_date s = true ↔ s = "" ∨ SpecDateRelaxed s) ∧
    validate_date "" = true ∧ validate_date "2024-02-29" = true ∧
    validate_date "2024-02-30" = false ∧ validate_date "24-02-01" = false := by
  refine ⟨?_, by decide, by decide, by decide, by decide⟩
  unfold validate_date
  rw [Bool.or_eq_true]
  constructor
  · rintro (he | hst)
    · exact Or.inl ((String.isEmpty_iff s).mp he)
    · exact Or.inr ((strptimeYmd_iff s).mp hst)
  · rintro (rfl | hsp)
    · exact Or.inl rfl
    · exact Or.inr ((strptimeYmd_iff s).mpr hsp)

end TodoPython
